import Mathlib

/-!
Verification of the `LookupMap` store from `near-sdk/src/store/lookup_map/mod.rs`:
a lazily loaded, write-deferred caching key-value map over an external byte
storage host.  Pure Rust functions become Lean functions; the storage host and
the cache are explicit state threaded through each operation; `env::panic`
(the host abort) becomes the `Except.error` outcome.

The map is generic over key `K`, value `V` and digest `D` (the Rust code fixes
`D = [u8; 32]`; the hash is a pluggable collaborator).  Bytes are `List Nat`.
-/

set_option autoImplicit false
set_option linter.unusedSectionVars false

namespace NearStore

/-- Error messages from `lookup_map/mod.rs` (the `ERR_*` constants). -/
def ERR_ELEMENT_DESERIALIZATION : String := "Cannot deserialize element"

/-- Error message raised when a key or value cannot be Borsh-serialized. -/
def ERR_ELEMENT_SERIALIZATION : String := "Cannot serialize element"

/-- The two-state dirty marker of a cache entry (`EntryState` in `crate::utils`).
Modelled from the spec: `Cached` mirrors storage, `Modified` must be persisted
on the next flush. -/
inductive EntryState where
  | Cached
  | Modified
deriving DecidableEq, Repr

/-- Modelled from the spec: `CacheEntry` (from `crate::utils`, not under `src/`)
holds an optional value plus an `EntryState` marker. -/
structure CacheEntry (V : Type) where
  value : Option V
  state : EntryState
deriving DecidableEq, Repr

namespace CacheEntry

variable {V : Type}

/-- Modelled from the spec: constructor for an entry that mirrors storage. -/
def new_cached (v : Option V) : CacheEntry V := ⟨v, EntryState.Cached⟩

/-- Modelled from the spec: constructor for an entry pending persistence. -/
def new_modified (v : Option V) : CacheEntry V := ⟨v, EntryState.Modified⟩

/-- Modelled from the spec: `replace(new) -> old` overwrites the value and
unconditionally sets the state to `Modified`, returning the previous value. -/
def replace (e : CacheEntry V) (new : Option V) : Option V × CacheEntry V :=
  (e.value, ⟨new, EntryState.Modified⟩)

/-- Modelled from the spec: `value_mut` grants a mutable alias, so it marks the
entry `Modified` pessimistically at the moment of the grant.  The model returns
the entry with the state already demoted to `Modified`. -/
def value_mut (e : CacheEntry V) : CacheEntry V := ⟨e.value, EntryState.Modified⟩

/-- Modelled from the spec: `is_modified` tests the dirty marker. -/
def is_modified (e : CacheEntry V) : Bool :=
  match e.state with
  | EntryState.Modified => true
  | EntryState.Cached => false

/-- Modelled from the spec: `replace_state` is used by flush to demote the
entry back to `Cached` after a successful persist. -/
def replace_state (e : CacheEntry V) (s : EntryState) : CacheEntry V := ⟨e.value, s⟩

end CacheEntry

/-- Association-list lookup: first binding for the key, if any. -/
def assocGet {K A : Type} [DecidableEq K] : List (K × A) → K → Option A
  | [], _ => none
  | (k, a) :: rest, q => if k = q then some a else assocGet rest q

/-- Association-list update: replace the first binding in place, or append a
fresh binding at the end when the key is absent. -/
def assocSet {K A : Type} [DecidableEq K] : List (K × A) → K → A → List (K × A)
  | [], q, b => [(q, b)]
  | (k, a) :: rest, q, b =>
    if k = q then (k, b) :: rest else (k, a) :: assocSet rest q b

/-- Association-list removal: drop every binding for the key. -/
def assocRemove {K A : Type} [DecidableEq K] (l : List (K × A)) (q : K) : List (K × A) :=
  l.filter (fun p => p.1 ≠ q)

/-- One storage-host operation, recorded for cost accounting (each host call is
charged to the caller). -/
inductive HostOp (D : Type) where
  | read (d : D)
  | write (d : D) (bytes : List Nat)
  | remove (d : D)
  | hasKey (d : D)
deriving DecidableEq, Repr

/-- Modelled from the spec: the storage host (external interface `env::storage_*`,
not under `src/`): a flat byte-keyed store plus a log of issued operations. -/
structure Host (D : Type) where
  data : List (D × List Nat)
  log : List (HostOp D)
deriving DecidableEq, Repr

namespace Host

variable {D : Type} [DecidableEq D]

/-- Modelled from the spec: `read(key) -> optional bytes`, synchronous and
deterministic; logged. -/
def read (h : Host D) (d : D) : Option (List Nat) × Host D :=
  (assocGet h.data d, { h with log := h.log ++ [HostOp.read d] })

/-- Modelled from the spec: `write(key, value)`; logged. -/
def write (h : Host D) (d : D) (bs : List Nat) : Host D :=
  { data := assocSet h.data d bs, log := h.log ++ [HostOp.write d bs] }

/-- Modelled from the spec: `remove(key)`; logged. -/
def removeKey (h : Host D) (d : D) : Host D :=
  { data := assocRemove h.data d, log := h.log ++ [HostOp.remove d] }

/-- Modelled from the spec: `has_key(key) -> bool`, an existence check that
reads no value; logged. -/
def hasKey (h : Host D) (d : D) : Bool × Host D :=
  ((assocGet h.data d).isSome, { h with log := h.log ++ [HostOp.hasKey d] })

/-- A host with empty backing storage and an empty log. -/
def empty : Host D := ⟨[], []⟩

end Host

/-- Modelled from the spec: the encoding and hash collaborators (external
interfaces).  Serialization may fail (`none`), which the map turns into an
abort; `hash` is the pluggable `CryptoHasher`. -/
structure Codec (K V D : Type) where
  serK : K → Option (List Nat)
  serV : V → Option (List Nat)
  deserV : List Nat → Option V
  hash : List Nat → D

/-- The `LookupMap` state: the namespace byte prefix and the stable cache.
The cache is an association list from logical key to a slot; a slot's
`Option (CacheEntry V)` mirrors the `OnceCell<CacheEntry<V>>` (`none` is an
uninitialized cell).  `StableMap` itself is not under `src/`; modelled from the
spec as a keyed collection of slots with an iteration capability. -/
structure LookupMap (K V : Type) where
  pfx : List Nat
  cache : List (K × Option (CacheEntry V))
deriving DecidableEq, Repr

namespace LookupMap

variable {K V D : Type} [DecidableEq K] [DecidableEq D]

/-- `LookupMap::new` / `new_with_hasher`: stores the prefix, empty cache. -/
def new (pfx : List Nat) : LookupMap K V := ⟨pfx, []⟩

/-- `lookup_key`: concatenates the prefix with the Borsh-serialized key and
hashes the buffer; a serialization failure panics with
`ERR_ELEMENT_SERIALIZATION`. -/
def lookup_key (c : Codec K V D) (pfx : List Nat) (k : K) : Except String D :=
  match c.serK k with
  | some bs => Except.ok (c.hash (pfx ++ bs))
  | none => Except.error ERR_ELEMENT_SERIALIZATION

/-- `deserialize_element`: decodes stored bytes as a value; a failure panics
with `ERR_ELEMENT_DESERIALIZATION`. -/
def deserialize_element (c : Codec K V D) (bs : List Nat) : Except String V :=
  match c.deserV bs with
  | some v => Except.ok v
  | none => Except.error ERR_ELEMENT_DESERIALIZATION

/-- `load_element`: one storage read at the derived key, then decode (absent
bytes load as `none` without decoding). -/
def load_element (c : Codec K V D) (pfx : List Nat) (k : K) (h : Host D) :
    Except String (Option V × Host D) :=
  match lookup_key c pfx k with
  | Except.error s => Except.error s
  | Except.ok d =>
    match Host.read h d with
    | (none, h1) => Except.ok (none, h1)
    | (some bs, h1) =>
      match deserialize_element c bs with
      | Except.error s => Except.error s
      | Except.ok v => Except.ok (some v, h1)

/-- `get`: if the slot is initialized, answer from the cache; otherwise load
from storage once and cache the outcome (present or confirmed absent) as
`Cached`. -/
def get (c : Codec K V D) (m : LookupMap K V) (h : Host D) (k : K) :
    Except String (Option V × LookupMap K V × Host D) :=
  match assocGet m.cache k with
  | some (some e) => Except.ok (e.value, m, h)
  | _ =>
    match load_element c m.pfx k h with
    | Except.error s => Except.error s
    | Except.ok (v?, h1) =>
      Except.ok (v?, { m with cache := assocSet m.cache k (some (CacheEntry.new_cached v?)) }, h1)

/-- `get_mut_inner`: resolve the slot, lazily loading on first touch, and
return the (initialized) cache entry together with the updated map. -/
def get_mut_inner (c : Codec K V D) (m : LookupMap K V) (h : Host D) (k : K) :
    Except String (CacheEntry V × LookupMap K V × Host D) :=
  match assocGet m.cache k with
  | some (some e) => Except.ok (e, m, h)
  | _ =>
    match load_element c m.pfx k h with
    | Except.error s => Except.error s
    | Except.ok (v?, h1) =>
      let e := CacheEntry.new_cached v?
      Except.ok (e, { m with cache := assocSet m.cache k (some e) }, h1)

/-- `get_mut`: the lazy-load path of `get_mut_inner`, then `value_mut` — which
marks the slot `Modified` at the moment the mutable alias is issued. -/
def get_mut (c : Codec K V D) (m : LookupMap K V) (h : Host D) (k : K) :
    Except String (Option V × LookupMap K V × Host D) :=
  match get_mut_inner c m h k with
  | Except.error s => Except.error s
  | Except.ok (e, m1, h1) =>
    let e1 := CacheEntry.value_mut e
    Except.ok (e1.value, { m1 with cache := assocSet m1.cache k (some e1) }, h1)

/-- `insert`: resolve/load the slot, then `replace(Some(value))`, returning the
previously resident value. -/
def insert (c : Codec K V D) (m : LookupMap K V) (h : Host D) (k : K) (v : V) :
    Except String (Option V × LookupMap K V × Host D) :=
  match get_mut_inner c m h k with
  | Except.error s => Except.error s
  | Except.ok (e, m1, h1) =>
    match CacheEntry.replace e (some v) with
    | (old, e1) => Except.ok (old, { m1 with cache := assocSet m1.cache k (some e1) }, h1)

/-- `remove`: resolve/load the slot, then `replace(None)`, returning the
removed value. -/
def remove (c : Codec K V D) (m : LookupMap K V) (h : Host D) (k : K) :
    Except String (Option V × LookupMap K V × Host D) :=
  match get_mut_inner c m h k with
  | Except.error s => Except.error s
  | Except.ok (e, m1, h1) =>
    match CacheEntry.replace e none with
    | (old, e1) => Except.ok (old, { m1 with cache := assocSet m1.cache k (some e1) }, h1)

/-- `set`: unconditional overwrite without touching storage; mutates an
initialized cell through `value_mut` (marking `Modified`) or initializes the
cell with `new_modified`. -/
def set (m : LookupMap K V) (k : K) (v? : Option V) : LookupMap K V :=
  match assocGet m.cache k with
  | some (some _) => { m with cache := assocSet m.cache k (some ⟨v?, EntryState.Modified⟩) }
  | _ => { m with cache := assocSet m.cache k (some (CacheEntry.new_modified v?)) }

/-- `contains_key`: cache short-circuit only on a confirmed-present value;
otherwise one `has_key` existence check, caching a confirmed-absent entry
(`OnceCell::set`, which only initializes an empty cell) when absent. -/
def contains_key (c : Codec K V D) (m : LookupMap K V) (h : Host D) (k : K) :
    Except String (Bool × LookupMap K V × Host D) :=
  if (match assocGet m.cache k with
      | some (some e) => e.value.isSome
      | _ => false) then
    Except.ok (true, m, h)
  else
    match lookup_key c m.pfx k with
    | Except.error s => Except.error s
    | Except.ok d =>
      if (Host.hasKey h d).1 then Except.ok (true, m, (Host.hasKey h d).2)
      else
        let m1 :=
          match assocGet m.cache k with
          | some (some _) => m
          | _ => { m with cache := assocSet m.cache k (some (CacheEntry.new_cached none)) }
        Except.ok (false, m1, (Host.hasKey h d).2)

/-- The body of `flush` over the cache list: for each initialized `Modified`
slot, derive the digest and either write the serialized value or issue a
remove, then demote the slot to `Cached`; every other slot is untouched. -/
def flushCache (c : Codec K V D) (pfx : List Nat) :
    List (K × Option (CacheEntry V)) → Host D →
    Except String (List (K × Option (CacheEntry V)) × Host D)
  | [], h => Except.ok ([], h)
  | (k, none) :: rest, h =>
    (match flushCache c pfx rest h with
      | Except.error s => Except.error s
      | Except.ok (r, h1) => Except.ok ((k, none) :: r, h1))
  | (k, some e) :: rest, h =>
    if CacheEntry.is_modified e then
        match lookup_key c pfx k with
        | Except.error s => Except.error s
        | Except.ok d =>
          match e.value with
          | some v =>
            match c.serV v with
            | none => Except.error ERR_ELEMENT_SERIALIZATION
            | some bs =>
              match flushCache c pfx rest (Host.write h d bs) with
              | Except.error s => Except.error s
              | Except.ok (r, h1) =>
                Except.ok ((k, some (CacheEntry.replace_state e EntryState.Cached)) :: r, h1)
          | none =>
            match flushCache c pfx rest (Host.removeKey h d) with
            | Except.error s => Except.error s
            | Except.ok (r, h1) =>
              Except.ok ((k, some (CacheEntry.replace_state e EntryState.Cached)) :: r, h1)
      else
        match flushCache c pfx rest h with
        | Except.error s => Except.error s
        | Except.ok (r, h1) => Except.ok ((k, some e) :: r, h1)

/-- `flush`: persist every `Modified` slot (write if present, remove if
absent) and demote it to `Cached`; untouched slots keep their state. -/
def flush (c : Codec K V D) (m : LookupMap K V) (h : Host D) :
    Except String (LookupMap K V × Host D) :=
  match flushCache c m.pfx m.cache h with
  | Except.error s => Except.error s
  | Except.ok (cache1, h1) => Except.ok ({ m with cache := cache1 }, h1)

/-- The host operations a flush performs, computed from the cache alone: one
write per `Modified`-present slot, one remove per `Modified`-absent slot,
nothing for any other slot. -/
def flushOps (c : Codec K V D) (pfx : List Nat) :
    List (K × Option (CacheEntry V)) → Except String (List (HostOp D))
  | [] => Except.ok []
  | (_, none) :: rest => flushOps c pfx rest
  | (k, some e) :: rest =>
    (if CacheEntry.is_modified e then
        match lookup_key c pfx k with
        | Except.error s => Except.error s
        | Except.ok d =>
          match e.value with
          | some v =>
            match c.serV v with
            | none => Except.error ERR_ELEMENT_SERIALIZATION
            | some bs =>
              match flushOps c pfx rest with
              | Except.error s => Except.error s
              | Except.ok ops => Except.ok (HostOp.write d bs :: ops)
          | none =>
            match flushOps c pfx rest with
            | Except.error s => Except.error s
            | Except.ok ops => Except.ok (HostOp.remove d :: ops)
      else flushOps c pfx rest)

/-- The view an `entry(key)` call yields once the slot is resolved:
`occupied` carries the present value, `vacant` a confirmed-absent slot. -/
inductive EntryView (V : Type) where
  | occupied (v : V)
  | vacant
deriving DecidableEq, Repr

/-- `entry`: resolve/load the slot once via `get_mut_inner`, then classify it
as `Occupied` (value present) or `Vacant` (value absent). -/
def entry (c : Codec K V D) (m : LookupMap K V) (h : Host D) (k : K) :
    Except String (EntryView V × LookupMap K V × Host D) :=
  match get_mut_inner c m h k with
  | Except.error s => Except.error s
  | Except.ok (e, m1, h1) =>
    match e.value with
    | some v => Except.ok (EntryView.occupied v, m1, h1)
    | none => Except.ok (EntryView.vacant, m1, h1)

/-- Modelled from the spec: `Entry::or_insert` (from `entry.rs`, not under
`src/`): an occupied entry hands back its value through `into_mut` (a mutable
alias, hence `value_mut` marks the slot `Modified`); a vacant entry inserts the
default, marking `Modified`.  Returns the value the handed-out alias sees,
together with the updated map. -/
def or_insert (m : LookupMap K V) (k : K) (ev : EntryView V) (default : V) :
    V × LookupMap K V :=
  match ev with
  | EntryView.occupied v =>
    (v, { m with cache := assocSet m.cache k (some ⟨some v, EntryState.Modified⟩) })
  | EntryView.vacant =>
    (default, { m with cache := assocSet m.cache k (some ⟨some default, EntryState.Modified⟩) })

/-- One step of the counter scenario from the `entry` doc example:
`entry(key).or_insert(0)` followed by `*counter += 1` (the increment is a
write through the mutable alias `or_insert` returned, so it updates the
already-`Modified` slot in place). -/
def counterStep {K D : Type} [DecidableEq K] [DecidableEq D]
    (c : Codec K Nat D) (st : LookupMap K Nat × Host D) (k : K) :
    Except String (LookupMap K Nat × Host D) :=
  match entry c st.1 st.2 k with
  | Except.error s => Except.error s
  | Except.ok (ev, m1, h1) =>
    match or_insert m1 k ev 0 with
    | (v, m2) =>
      Except.ok ({ m2 with cache := assocSet m2.cache k (some ⟨some (v + 1), EntryState.Modified⟩) }, h1)

/-- The counter scenario over a whole key sequence, starting from a given map
and host state. -/
def counterRun {K D : Type} [DecidableEq K] [DecidableEq D]
    (c : Codec K Nat D) (st : LookupMap K Nat × Host D) :
    List K → Except String (LookupMap K Nat × Host D)
  | [] => Except.ok st
  | k :: rest =>
    match counterStep c st k with
    | Except.error s => Except.error s
    | Except.ok st1 => counterRun c st1 rest

/-- The effect of one flush on a single cache binding: an initialized entry is
demoted to `Cached` keeping its value, an uninitialized cell stays empty. -/
def demote (kc : K × Option (CacheEntry V)) : K × Option (CacheEntry V) :=
  (kc.1, kc.2.map fun e => ⟨e.value, EntryState.Cached⟩)

end LookupMap

/-- A concrete instantiation for witnesses: `Nat` keys and values, one-byte
Borsh-like encoding, and the identity hash over the buffer (the hash is a
pluggable collaborator; digests are byte lists). -/
def codecN : Codec Nat Nat (List Nat) where
  serK := fun n => some [n]
  serV := fun n => some [n]
  deserV := fun bs =>
    match bs with
    | [n] => some n
    | _ => none
  hash := id

/-- A codec whose key encoding always fails, to exercise the
`ERR_ELEMENT_SERIALIZATION` abort path. -/
def codecBadK : Codec Nat Nat (List Nat) where
  serK := fun _ => none
  serV := fun n => some [n]
  deserV := fun bs =>
    match bs with
    | [n] => some n
    | _ => none
  hash := id

/-- A codec whose value encoding always fails, to exercise the flush-time
`ERR_ELEMENT_SERIALIZATION` abort path. -/
def codecBadV : Codec Nat Nat (List Nat) where
  serK := fun n => some [n]
  serV := fun _ => none
  deserV := fun bs =>
    match bs with
    | [n] => some n
    | _ => none
  hash := id

/-- The counter scenario of the `entry` doc example, run on a fresh map with
prefix `"m"` (byte 109) over empty backing storage and queried at one key:
`some v?` is the value `get` answers after the run, `none` an abort. -/
def counterScenario (query : Nat) : Option (Option Nat) :=
  match LookupMap.counterRun codecN (LookupMap.new [109], Host.empty) [7, 2, 4, 7, 4, 1, 7] with
  | Except.error _ => none
  | Except.ok (m, h) =>
    match LookupMap.get codecN m h query with
    | Except.error _ => none
    | Except.ok (v?, _, _) => some v?

namespace LookupMap

variable {K V D : Type} [DecidableEq K] [DecidableEq D]

theorem assocGet_assocSet_self {A : Type} (l : List (K × A)) (k : K) (a : A) :
    assocGet (assocSet l k a) k = some a := by
  induction l with
  | nil => simp [assocSet, assocGet]
  | cons p rest ih =>
    obtain ⟨pk, pa⟩ := p
    by_cases hp : pk = k
    · simp [assocSet, hp, assocGet]
    · simp [assocSet, hp, assocGet, ih]

theorem assocGet_assocRemove_self {A : Type} (l : List (K × A)) (k : K) :
    assocGet (assocRemove l k) k = none := by
  induction l with
  | nil => simp [assocRemove, assocGet]
  | cons p rest ih =>
    obtain ⟨pk, pa⟩ := p
    by_cases hp : pk = k
    · simpa [assocRemove, List.filter_cons, hp] using ih
    · simpa [assocRemove, List.filter_cons, hp, assocGet] using ih

theorem load_element_host {c : Codec K V D} {pfx : List Nat} {k : K} {h h1 : Host D}
    {v? : Option V} (hld : load_element c pfx k h = Except.ok (v?, h1)) :
    ∃ d, lookup_key c pfx k = Except.ok d ∧
      h1 = { h with log := h.log ++ [HostOp.read d] } := by
  unfold load_element at hld
  cases hlk : lookup_key c pfx k with
  | error s => rw [hlk] at hld; simp at hld
  | ok d =>
    rw [hlk] at hld
    refine ⟨d, rfl, ?_⟩
    cases hga : assocGet h.data d with
    | none => simp [Host.read, hga] at hld; exact hld.2.symm
    | some bs =>
      simp [Host.read, hga] at hld
      cases hde : deserialize_element c bs with
      | error s => rw [hde] at hld; simp at hld
      | ok v => rw [hde] at hld; simp at hld; exact hld.2.symm

theorem get_mut_inner_resolved {c : Codec K V D} {m : LookupMap K V} {h : Host D}
    {k : K} {e : CacheEntry V} (hslot : assocGet m.cache k = some (some e)) :
    get_mut_inner c m h k = Except.ok (e, m, h) := by
  unfold get_mut_inner
  rw [hslot]

theorem get_mut_inner_unresolved {c : Codec K V D} {m m1 : LookupMap K V}
    {h h1 : Host D} {k : K} {e : CacheEntry V}
    (hun : assocGet m.cache k = none ∨ assocGet m.cache k = some none)
    (hres : get_mut_inner c m h k = Except.ok (e, m1, h1)) :
    load_element c m.pfx k h = Except.ok (e.value, h1) ∧
      e.state = EntryState.Cached ∧
      m1 = { m with cache := assocSet m.cache k (some e) } := by
  unfold get_mut_inner at hres
  rcases hun with hun | hun <;>
  · rw [hun] at hres
    cases hld : load_element c m.pfx k h with
    | error s => rw [hld] at hres; simp at hres
    | ok p =>
      obtain ⟨v?, h'⟩ := p
      rw [hld] at hres
      simp only [Except.ok.injEq, Prod.mk.injEq] at hres
      obtain ⟨he, hm1, hh1⟩ := hres
      subst hh1
      subst he
      exact ⟨rfl, rfl, hm1.symm⟩

theorem insert_eq_of_resolved {c : Codec K V D} {m : LookupMap K V} {h : Host D}
    {k : K} {e : CacheEntry V} (v : V) (hslot : assocGet m.cache k = some (some e)) :
    insert c m h k v =
      Except.ok (e.value,
        { m with cache := assocSet m.cache k (some ⟨some v, EntryState.Modified⟩) }, h) := by
  unfold insert
  rw [get_mut_inner_resolved hslot]
  rfl

theorem remove_eq_of_resolved {c : Codec K V D} {m : LookupMap K V} {h : Host D}
    {k : K} {e : CacheEntry V} (hslot : assocGet m.cache k = some (some e)) :
    remove c m h k =
      Except.ok (e.value,
        { m with cache := assocSet m.cache k (some ⟨none, EntryState.Modified⟩) }, h) := by
  unfold remove
  rw [get_mut_inner_resolved hslot]
  rfl

theorem insert_slot_modified {c : Codec K V D} {m m1 : LookupMap K V} {h h1 : Host D}
    {k : K} {v : V} {r : Option V}
    (hres : insert c m h k v = Except.ok (r, m1, h1)) :
    assocGet m1.cache k = some (some (⟨some v, EntryState.Modified⟩ : CacheEntry V)) := by
  unfold insert at hres
  cases hgm : get_mut_inner c m h k with
  | error s => rw [hgm] at hres; simp at hres
  | ok p =>
    obtain ⟨e, m', h'⟩ := p
    rw [hgm] at hres
    simp only [CacheEntry.replace, Except.ok.injEq, Prod.mk.injEq] at hres
    obtain ⟨-, hm1, -⟩ := hres
    rw [← hm1]
    exact assocGet_assocSet_self _ _ _

theorem remove_slot_modified {c : Codec K V D} {m m1 : LookupMap K V} {h h1 : Host D}
    {k : K} {r : Option V}
    (hres : remove c m h k = Except.ok (r, m1, h1)) :
    assocGet m1.cache k = some (some (⟨none, EntryState.Modified⟩ : CacheEntry V)) := by
  unfold remove at hres
  cases hgm : get_mut_inner c m h k with
  | error s => rw [hgm] at hres; simp at hres
  | ok p =>
    obtain ⟨e, m', h'⟩ := p
    rw [hgm] at hres
    simp only [CacheEntry.replace, Except.ok.injEq, Prod.mk.injEq] at hres
    obtain ⟨-, hm1, -⟩ := hres
    rw [← hm1]
    exact assocGet_assocSet_self _ _ _

theorem insert_new {c : Codec K V D} {pfx : List Nat} {h h1 : Host D} {k : K} {v : V}
    {r : Option V} {m1 : LookupMap K V}
    (hres : insert c (LookupMap.new pfx) h k v = Except.ok (r, m1, h1)) :
    m1 = ⟨pfx, [(k, some ⟨some v, EntryState.Modified⟩)]⟩ ∧ h1.data = h.data := by
  unfold insert at hres
  cases hgm : get_mut_inner c (LookupMap.new pfx) h k with
  | error s => rw [hgm] at hres; simp at hres
  | ok p =>
    obtain ⟨e, m', h'⟩ := p
    have hun : assocGet ((LookupMap.new pfx : LookupMap K V)).cache k = none := rfl
    obtain ⟨hld, -, hm'⟩ := get_mut_inner_unresolved (Or.inl hun) hgm
    obtain ⟨d, -, hh'⟩ := load_element_host hld
    rw [hgm] at hres
    simp only [CacheEntry.replace, Except.ok.injEq, Prod.mk.injEq] at hres
    obtain ⟨-, hm1, hh1⟩ := hres
    constructor
    · rw [← hm1, hm']
      simp [LookupMap.new, assocSet]
    · rw [← hh1, hh']

theorem demote_of_cached {k : K} {e : CacheEntry V} (hc : CacheEntry.is_modified e = false) :
    demote (k, some e) = (k, some e) := by
  obtain ⟨v?, s⟩ := e
  cases s with
  | Cached => rfl
  | Modified => simp [CacheEntry.is_modified] at hc

theorem flushCache_ok {c : Codec K V D} {pfx : List Nat}
    {l l1 : List (K × Option (CacheEntry V))} {h h1 : Host D}
    (hres : flushCache c pfx l h = Except.ok (l1, h1)) :
    l1 = l.map demote ∧
      ∃ ops, flushOps c pfx l = Except.ok ops ∧ h1.log = h.log ++ ops := by
  induction l generalizing h l1 h1 with
  | nil =>
    unfold flushCache at hres
    simp only [Except.ok.injEq, Prod.mk.injEq] at hres
    obtain ⟨hl, hh⟩ := hres
    subst hl hh
    exact ⟨rfl, [], rfl, by simp⟩
  | cons p rest ih =>
    obtain ⟨k, cell⟩ := p
    cases cell with
    | none =>
      unfold flushCache at hres
      cases hrec : flushCache c pfx rest h with
      | error s => rw [hrec] at hres; simp at hres
      | ok q =>
        obtain ⟨r, h'⟩ := q
        rw [hrec] at hres
        simp only [Except.ok.injEq, Prod.mk.injEq] at hres
        obtain ⟨hl, hh⟩ := hres
        subst hl hh
        obtain ⟨hr, ops, hops, hlog⟩ := ih hrec
        subst hr
        exact ⟨rfl, ops, by simpa [flushOps] using hops, hlog⟩
    | some e =>
      unfold flushCache at hres
      split at hres
      · -- the slot is Modified
        rename_i hmod
        split at hres
        · simp at hres
        · rename_i d hlk
          split at hres
          · -- value present: flush writes
            rename_i v hv
            split at hres
            · simp at hres
            · rename_i bs hsv
              split at hres
              · simp at hres
              · rename_i r h' hrec
                simp only [Except.ok.injEq, Prod.mk.injEq] at hres
                obtain ⟨hl, hh⟩ := hres
                subst hl hh
                obtain ⟨hr, ops, hops, hlog⟩ := ih hrec
                subst hr
                refine ⟨?_, HostOp.write d bs :: ops, ?_, ?_⟩
                · simp [demote, CacheEntry.replace_state]
                · simp [flushOps, hmod, hlk, hv, hsv, hops]
                · rw [hlog]; simp [Host.write]
          · -- value absent: flush removes
            rename_i hv
            split at hres
            · simp at hres
            · rename_i r h' hrec
              simp only [Except.ok.injEq, Prod.mk.injEq] at hres
              obtain ⟨hl, hh⟩ := hres
              subst hl hh
              obtain ⟨hr, ops, hops, hlog⟩ := ih hrec
              subst hr
              refine ⟨?_, HostOp.remove d :: ops, ?_, ?_⟩
              · simp [demote, CacheEntry.replace_state]
              · simp [flushOps, hmod, hlk, hv, hops]
              · rw [hlog]; simp [Host.removeKey]
      · -- the slot is clean: untouched
        rename_i hmod
        have hmod2 : CacheEntry.is_modified e = false := by
          simpa using hmod
        split at hres
        · simp at hres
        · rename_i r h' hrec
          simp only [Except.ok.injEq, Prod.mk.injEq] at hres
          obtain ⟨hl, hh⟩ := hres
          subst hl hh
          obtain ⟨hr, ops, hops, hlog⟩ := ih hrec
          subst hr
          refine ⟨by rw [List.map_cons, demote_of_cached hmod2], ops, ?_, hlog⟩
          simpa [flushOps, hmod2] using hops

theorem flushCache_clean (c : Codec K V D) (pfx : List Nat)
    (l : List (K × Option (CacheEntry V))) (h : Host D) :
    flushCache c pfx (l.map demote) h = Except.ok (l.map demote, h) := by
  induction l with
  | nil => rfl
  | cons p rest ih =>
    obtain ⟨k, cell⟩ := p
    cases cell with
    | none => simp [demote, flushCache, ih]
    | some e => simp [demote, flushCache, CacheEntry.is_modified, ih]

/-- C4: insert returns the previous value — after `insert(k, v1)` succeeds, a
second `insert(k, v2)` returns `Some(v1)` (the value resident immediately
before the call), updates the slot in place, and touches the storage host not
at all. -/
theorem claim_C4_insert_returns_previous {c : Codec K V D} {m m1 : LookupMap K V}
    {h h1 : Host D} {k : K} {v1 v2 : V} {r1 : Option V}
    (hres : insert c m h k v1 = Except.ok (r1, m1, h1)) :
    insert c m1 h1 k v2 =
      Except.ok (some v1,
        { m1 with cache := assocSet m1.cache k (some ⟨some v2, EntryState.Modified⟩) }, h1) := by
  have hslot := insert_slot_modified hres
  exact insert_eq_of_resolved v2 hslot

/-- C4 witness: inserting 7 at key 5 into a fresh map, then inserting 9,
returns `some 7` with no further host operation. -/
theorem claim_C4_insert_returns_previous_witness :
    insert codecN (LookupMap.new [109]) Host.empty 5 7 =
      Except.ok (none, (⟨[109], [(5, some ⟨some 7, EntryState.Modified⟩)]⟩ : LookupMap Nat Nat),
        (⟨[], [HostOp.read [109, 5]]⟩ : Host (List Nat))) ∧
    insert codecN ⟨[109], [(5, some ⟨some 7, EntryState.Modified⟩)]⟩
        ⟨[], [HostOp.read [109, 5]]⟩ 5 9 =
      Except.ok (some 7, ⟨[109], [(5, some ⟨some 9, EntryState.Modified⟩)]⟩,
        ⟨[], [HostOp.read [109, 5]]⟩) :=
  ⟨rfl,
    claim_C4_insert_returns_previous
      (show insert codecN (LookupMap.new [109]) Host.empty 5 7 =
        Except.ok (none,
          (⟨[109], [(5, some ⟨some 7, EntryState.Modified⟩)]⟩ : LookupMap Nat Nat),
          (⟨[], [HostOp.read [109, 5]]⟩ : Host (List Nat))) from rfl)⟩

/-- C7: pessimistic dirty marking — whenever `get_mut(k)` issues a mutable
reference (returns `Some v`), the slot for `k` is marked `Modified` at that
moment, regardless of whether the caller changes the value afterwards. -/
theorem claim_C7_get_mut_marks_modified {c : Codec K V D} {m m1 : LookupMap K V}
    {h h1 : Host D} {k : K} {v : V}
    (hres : get_mut c m h k = Except.ok (some v, m1, h1)) :
    assocGet m1.cache k = some (some ⟨some v, EntryState.Modified⟩) := by
  unfold get_mut at hres
  cases hgm : get_mut_inner c m h k with
  | error s => rw [hgm] at hres; simp at hres
  | ok p =>
    obtain ⟨e, m', h'⟩ := p
    rw [hgm] at hres
    simp only [CacheEntry.value_mut, Except.ok.injEq, Prod.mk.injEq] at hres
    obtain ⟨hv, hm1, hh1⟩ := hres
    rw [← hm1]
    simp only [assocGet_assocSet_self, hv]

/-- C7 witness: a `get_mut` on a clean cached slot returns its value and
leaves the slot `Modified`. -/
theorem claim_C7_get_mut_marks_modified_witness :
    get_mut codecN (⟨[109], [(5, some ⟨some 7, EntryState.Cached⟩)]⟩ : LookupMap Nat Nat)
        Host.empty 5 =
      Except.ok (some 7, ⟨[109], [(5, some ⟨some 7, EntryState.Modified⟩)]⟩, Host.empty) ∧
    assocGet (⟨[109], [(5, some ⟨some 7, EntryState.Modified⟩)]⟩ : LookupMap Nat Nat).cache 5 =
      some (some ⟨some 7, EntryState.Modified⟩) :=
  ⟨rfl,
    claim_C7_get_mut_marks_modified
      (show get_mut codecN
          (⟨[109], [(5, some ⟨some 7, EntryState.Cached⟩)]⟩ : LookupMap Nat Nat)
          Host.empty 5 =
        Except.ok (some 7,
          (⟨[109], [(5, some ⟨some 7, EntryState.Modified⟩)]⟩ : LookupMap Nat Nat),
          Host.empty) from rfl)⟩

/-- C8: the entry-API counter scenario — on a fresh map with prefix `"m"` and
empty backing storage, running `entry(key).or_insert(0)` followed by an
increment over the key sequence `[7, 2, 4, 7, 4, 1, 7]` ends with
`get(4) = Some 2`, `get(7) = Some 3`, `get(1) = Some 1` and `get(8) = None`. -/
theorem claim_C8_counter_scenario :
    counterScenario 4 = some (some 2) ∧ counterScenario 7 = some (some 3) ∧
      counterScenario 1 = some (some 1) ∧ counterScenario 8 = some none :=
  ⟨rfl, rfl, rfl, rfl⟩

/-- C10: the resolved cache is authoritative — `insert`/`remove` on a resolved
slot return exactly the cached value and leave the storage host untouched; in
particular after an un-flushed `remove(k)`, `insert(k, v2)` returns `None`
whatever the storage host still holds under the digest of `k`. -/
theorem claim_C10_cache_authoritative :
    (∀ (c : Codec K V D) (m : LookupMap K V) (h : Host D) (k : K) (e : CacheEntry V) (v : V),
      assocGet m.cache k = some (some e) →
      insert c m h k v =
        Except.ok (e.value,
          { m with cache := assocSet m.cache k (some ⟨some v, EntryState.Modified⟩) }, h)) ∧
    (∀ (c : Codec K V D) (m : LookupMap K V) (h : Host D) (k : K) (e : CacheEntry V),
      assocGet m.cache k = some (some e) →
      remove c m h k =
        Except.ok (e.value,
          { m with cache := assocSet m.cache k (some ⟨none, EntryState.Modified⟩) }, h)) ∧
    (∀ (c : Codec K V D) (m m1 : LookupMap K V) (h h1 : Host D) (k : K)
      (r : Option V) (v2 : V),
      remove c m h k = Except.ok (r, m1, h1) →
      insert c m1 h1 k v2 =
        Except.ok (none,
          { m1 with cache := assocSet m1.cache k (some ⟨some v2, EntryState.Modified⟩) }, h1)) := by
  refine ⟨?_, ?_, ?_⟩
  · intro c m h k e v hslot
    exact insert_eq_of_resolved v hslot
  · intro c m h k e hslot
    exact remove_eq_of_resolved hslot
  · intro c m m1 h h1 k r v2 hrem
    have hslot := remove_slot_modified hrem
    exact insert_eq_of_resolved v2 hslot

/-- C10 witness: with the storage host still holding bytes under the digest of
key 5, an un-flushed `remove(5)` followed by `insert(5, 9)` returns `None` and
issues no host operation. -/
theorem claim_C10_cache_authoritative_witness :
    remove codecN (⟨[109], [(5, some ⟨some 7, EntryState.Cached⟩)]⟩ : LookupMap Nat Nat)
        (⟨[([109, 5], [7])], []⟩ : Host (List Nat)) 5 =
      Except.ok (some 7, ⟨[109], [(5, some ⟨none, EntryState.Modified⟩)]⟩,
        ⟨[([109, 5], [7])], []⟩) ∧
    insert codecN ⟨[109], [(5, some ⟨none, EntryState.Modified⟩)]⟩
        ⟨[([109, 5], [7])], []⟩ 5 9 =
      Except.ok (none, ⟨[109], [(5, some ⟨some 9, EntryState.Modified⟩)]⟩,
        ⟨[([109, 5], [7])], []⟩) :=
  ⟨rfl,
    claim_C10_cache_authoritative.2.2 codecN
      ⟨[109], [(5, some ⟨some 7, EntryState.Cached⟩)]⟩
      ⟨[109], [(5, some ⟨none, EntryState.Modified⟩)]⟩
      ⟨[([109, 5], [7])], []⟩ ⟨[([109, 5], [7])], []⟩ 5 (some 7) 9 rfl⟩

/-- C1 counterexample: on a fresh map with prefix `"m"` over empty storage,
the first `contains_key(5)` returns false and logs one `has_key` check; the
second `contains_key(5)`, with no intervening mutation, logs a SECOND
`has_key` check — the claim's "zero additional storage-host existence checks"
fails, because the cached confirmed-absent entry does not short-circuit
`contains_key` (it only counts confirmed-present values). -/
theorem claim_C1_counterexample :
    contains_key codecN (LookupMap.new [109]) Host.empty 5 =
      Except.ok (false, (⟨[109], [(5, some ⟨none, EntryState.Cached⟩)]⟩ : LookupMap Nat Nat),
        (⟨[], [HostOp.hasKey [109, 5]]⟩ : Host (List Nat))) ∧
    contains_key codecN ⟨[109], [(5, some ⟨none, EntryState.Cached⟩)]⟩
        ⟨[], [HostOp.hasKey [109, 5]]⟩ 5 =
      Except.ok (false, ⟨[109], [(5, some ⟨none, EntryState.Cached⟩)]⟩,
        ⟨[], [HostOp.hasKey [109, 5], HostOp.hasKey [109, 5]]⟩) :=
  ⟨rfl, rfl⟩

/-- C1 (amended): after `contains_key(k)` returns false once, a subsequent
`contains_key(k)` with no intervening mutation still returns false and leaves
the map unchanged, but it issues exactly one additional storage-host existence
check (`has_key`) — the confirmed-absent cache entry prevents repeated value
reads by `get`, not repeated existence checks by `contains_key`. -/
theorem claim_C1_amended {c : Codec K V D} {m m1 : LookupMap K V} {h h1 : Host D} {k : K}
    (hres : contains_key c m h k = Except.ok (false, m1, h1)) :
    ∃ d, lookup_key c m.pfx k = Except.ok d ∧
      contains_key c m1 h1 k =
        Except.ok (false, m1, { h1 with log := h1.log ++ [HostOp.hasKey d] }) := by
  cases hmk : assocGet m.cache k with
  | some cell =>
    cases cell with
    | some e =>
      simp only [contains_key, hmk] at hres
      cases hev : e.value with
      | some v => simp [hev] at hres
      | none =>
        rw [if_neg (by simp [hev])] at hres
        cases hlk : lookup_key c m.pfx k with
        | error s => rw [hlk] at hres; simp at hres
        | ok d =>
          simp only [hlk] at hres
          cases hhk : assocGet h.data d with
          | some bs => simp [Host.hasKey, hhk] at hres
          | none =>
            rw [if_neg (by simp [Host.hasKey, hhk])] at hres
            simp only [hmk, Host.hasKey, Except.ok.injEq, Prod.mk.injEq, true_and] at hres
            obtain ⟨hm1, hh1⟩ := hres
            subst hm1 hh1
            refine ⟨d, rfl, ?_⟩
            simp [contains_key, hmk, hev, hlk, Host.hasKey, hhk]
    | none =>
      simp only [contains_key, hmk] at hres
      rw [if_neg (by simp)] at hres
      cases hlk : lookup_key c m.pfx k with
      | error s => rw [hlk] at hres; simp at hres
      | ok d =>
        simp only [hlk] at hres
        cases hhk : assocGet h.data d with
        | some bs => simp [Host.hasKey, hhk] at hres
        | none =>
          rw [if_neg (by simp [Host.hasKey, hhk])] at hres
          simp only [hmk, Host.hasKey, Except.ok.injEq, Prod.mk.injEq, true_and] at hres
          obtain ⟨hm1, hh1⟩ := hres
          subst hm1 hh1
          refine ⟨d, rfl, ?_⟩
          simp [contains_key, assocGet_assocSet_self, hlk, Host.hasKey, hhk,
            CacheEntry.new_cached]
  | none =>
    simp only [contains_key, hmk] at hres
    rw [if_neg (by simp)] at hres
    cases hlk : lookup_key c m.pfx k with
    | error s => rw [hlk] at hres; simp at hres
    | ok d =>
      simp only [hlk] at hres
      cases hhk : assocGet h.data d with
      | some bs => simp [Host.hasKey, hhk] at hres
      | none =>
        rw [if_neg (by simp [Host.hasKey, hhk])] at hres
        simp only [hmk, Host.hasKey, Except.ok.injEq, Prod.mk.injEq, true_and] at hres
        obtain ⟨hm1, hh1⟩ := hres
        subst hm1 hh1
        refine ⟨d, rfl, ?_⟩
        simp [contains_key, assocGet_assocSet_self, hlk, Host.hasKey, hhk,
          CacheEntry.new_cached]

/-- C1 (amended) witness: the concrete two-call run on a fresh map over empty
storage, with one further `has_key` logged by the second call. -/
theorem claim_C1_amended_witness :
    ∃ d, lookup_key codecN (LookupMap.new (K := Nat) (V := Nat) [109]).pfx 5 = Except.ok d ∧
      contains_key codecN (⟨[109], [(5, some ⟨none, EntryState.Cached⟩)]⟩ : LookupMap Nat Nat)
          (⟨[], [HostOp.hasKey [109, 5]]⟩ : Host (List Nat)) 5 =
        Except.ok (false, ⟨[109], [(5, some ⟨none, EntryState.Cached⟩)]⟩,
          { (⟨[], [HostOp.hasKey [109, 5]]⟩ : Host (List Nat)) with
              log := (⟨[], [HostOp.hasKey [109, 5]]⟩ : Host (List Nat)).log
                ++ [HostOp.hasKey d] }) :=
  claim_C1_amended
    (show contains_key codecN (LookupMap.new [109]) Host.empty 5 =
      Except.ok (false,
        (⟨[109], [(5, some ⟨none, EntryState.Cached⟩)]⟩ : LookupMap Nat Nat),
        (⟨[], [HostOp.hasKey [109, 5]]⟩ : Host (List Nat))) from rfl)

/-- C3: lazy read caching — a `get(k)` on an unresolved slot performs exactly
one storage-host read, caches the outcome (present or confirmed absent) as
`Cached`, and a second `get(k)` with no intervening mutation returns the same
result with zero further host operations. -/
theorem claim_C3_get_caches {c : Codec K V D} {m m1 : LookupMap K V} {h h1 : Host D}
    {k : K} {r : Option V}
    (hun : assocGet m.cache k = none ∨ assocGet m.cache k = some none)
    (hres : get c m h k = Except.ok (r, m1, h1)) :
    (∃ d, lookup_key c m.pfx k = Except.ok d ∧ h1.log = h.log ++ [HostOp.read d]) ∧
      assocGet m1.cache k = some (some ⟨r, EntryState.Cached⟩) ∧
      get c m1 h1 k = Except.ok (r, m1, h1) := by
  rcases hun with hmk | hmk <;>
  · simp only [get, hmk] at hres
    cases hld : load_element c m.pfx k h with
    | error s => rw [hld] at hres; simp at hres
    | ok p =>
      obtain ⟨v?, h'⟩ := p
      rw [hld] at hres
      simp only [Except.ok.injEq, Prod.mk.injEq] at hres
      obtain ⟨hr, hm1, hh1⟩ := hres
      subst hr
      subst hh1
      obtain ⟨d, hlk, hh'⟩ := load_element_host hld
      have hslot : assocGet m1.cache k = some (some ⟨v?, EntryState.Cached⟩) := by
        rw [← hm1]
        simp [assocGet_assocSet_self, CacheEntry.new_cached]
      refine ⟨⟨d, hlk, by rw [hh']⟩, hslot, ?_⟩
      simp [get, hslot]

/-- C3 witness: on a fresh map over empty storage, the first `get(5)` logs one
read, caches a confirmed-absent entry, and the second `get(5)` is pure. -/
theorem claim_C3_get_caches_witness :
    assocGet (LookupMap.new (K := Nat) (V := Nat) [109]).cache 5 = none ∧
    ((∃ d, lookup_key codecN (LookupMap.new (K := Nat) (V := Nat) [109]).pfx 5 = Except.ok d ∧
        (⟨[], [HostOp.read [109, 5]]⟩ : Host (List Nat)).log =
          (Host.empty (D := List Nat)).log ++ [HostOp.read d]) ∧
      assocGet (⟨[109], [(5, some ⟨none, EntryState.Cached⟩)]⟩ : LookupMap Nat Nat).cache 5 =
        some (some ⟨none, EntryState.Cached⟩) ∧
      get codecN (⟨[109], [(5, some ⟨none, EntryState.Cached⟩)]⟩ : LookupMap Nat Nat)
          (⟨[], [HostOp.read [109, 5]]⟩ : Host (List Nat)) 5 =
        Except.ok (none, ⟨[109], [(5, some ⟨none, EntryState.Cached⟩)]⟩,
          ⟨[], [HostOp.read [109, 5]]⟩)) :=
  ⟨rfl,
    claim_C3_get_caches (Or.inl rfl)
      (show get codecN (LookupMap.new [109]) Host.empty 5 =
        Except.ok (none,
          (⟨[109], [(5, some ⟨none, EntryState.Cached⟩)]⟩ : LookupMap Nat Nat),
          (⟨[], [HostOp.read [109, 5]]⟩ : Host (List Nat))) from rfl)⟩

/-- C2: round trip through storage — `insert(k, v)` on a fresh map, then
`flush()`, leaves the serialized value under the derived digest, and a freshly
constructed map over the same prefix answers `get(k) = Some v`. -/
theorem claim_C2_round_trip {c : Codec K V D} {pfx kb vb : List Nat} {h0 h1 : Host D}
    {k : K} {v : V} {r : Option V} {m1 : LookupMap K V}
    (hkb : c.serK k = some kb) (hvb : c.serV v = some vb) (hrt : c.deserV vb = some v)
    (hins : insert c (LookupMap.new pfx) h0 k v = Except.ok (r, m1, h1)) :
    ∃ h2, flush c m1 h1 =
        Except.ok (⟨pfx, [(k, some ⟨some v, EntryState.Cached⟩)]⟩, h2) ∧
      ∃ m3 h3, get c (LookupMap.new pfx) h2 k = Except.ok (some v, m3, h3) := by
  obtain ⟨hm1, -⟩ := insert_new hins
  subst hm1
  refine ⟨Host.write h1 (c.hash (pfx ++ kb)) vb, ?_, ?_⟩
  · simp [flush, flushCache, CacheEntry.is_modified, lookup_key, hkb, hvb,
      CacheEntry.replace_state]
  · refine ⟨⟨pfx, [(k, some ⟨some v, EntryState.Cached⟩)]⟩,
      { Host.write h1 (c.hash (pfx ++ kb)) vb with
          log := (Host.write h1 (c.hash (pfx ++ kb)) vb).log
            ++ [HostOp.read (c.hash (pfx ++ kb))] }, ?_⟩
    simp [get, LookupMap.new, assocGet, assocSet, load_element, lookup_key, hkb,
      Host.read, Host.write, assocGet_assocSet_self, deserialize_element, hrt,
      CacheEntry.new_cached]

/-- C2 witness: inserting 7 at key 5 on a fresh map over empty storage,
flushing, and reading through a freshly constructed map yields `some 7`. -/
theorem claim_C2_round_trip_witness :
    codecN.serK 5 = some [5] ∧ codecN.serV 7 = some [7] ∧ codecN.deserV [7] = some 7 ∧
    (∃ h2, flush codecN
          (⟨[109], [(5, some ⟨some 7, EntryState.Modified⟩)]⟩ : LookupMap Nat Nat)
          (⟨[], [HostOp.read [109, 5]]⟩ : Host (List Nat)) =
        Except.ok (⟨[109], [(5, some ⟨some 7, EntryState.Cached⟩)]⟩, h2) ∧
      ∃ m3 h3, get codecN (LookupMap.new [109]) h2 5 = Except.ok (some 7, m3, h3)) :=
  ⟨rfl, rfl, rfl,
    claim_C2_round_trip rfl rfl rfl
      (show insert codecN (LookupMap.new [109]) Host.empty 5 7 =
        Except.ok (none,
          (⟨[109], [(5, some ⟨some 7, EntryState.Modified⟩)]⟩ : LookupMap Nat Nat),
          (⟨[], [HostOp.read [109, 5]]⟩ : Host (List Nat))) from rfl)⟩

/-- C5: remove clears — after `insert(k, v)` on a fresh map, `remove(k)`
returns `Some v`, a following `get(k)` returns `None` with no host traffic,
and after `flush()` the storage host holds nothing under the digest derived
for `k` (the `Modified` absent slot turns into a storage remove). -/
theorem claim_C5_remove_clears {c : Codec K V D} {pfx kb : List Nat} {h0 h1 : Host D}
    {k : K} {v : V} {r : Option V} {m1 : LookupMap K V}
    (hkb : c.serK k = some kb)
    (hins : insert c (LookupMap.new pfx) h0 k v = Except.ok (r, m1, h1)) :
    remove c m1 h1 k =
      Except.ok (some v, ⟨pfx, [(k, some ⟨none, EntryState.Modified⟩)]⟩, h1) ∧
    get c ⟨pfx, [(k, some ⟨none, EntryState.Modified⟩)]⟩ h1 k =
      Except.ok (none, ⟨pfx, [(k, some ⟨none, EntryState.Modified⟩)]⟩, h1) ∧
    ∃ h3, flush c ⟨pfx, [(k, some ⟨none, EntryState.Modified⟩)]⟩ h1 =
        Except.ok (⟨pfx, [(k, some ⟨none, EntryState.Cached⟩)]⟩, h3) ∧
      assocGet h3.data (c.hash (pfx ++ kb)) = none := by
  obtain ⟨hm1, -⟩ := insert_new hins
  subst hm1
  refine ⟨?_, ?_, Host.removeKey h1 (c.hash (pfx ++ kb)), ?_, ?_⟩
  · simp [remove, get_mut_inner, assocGet, assocSet, CacheEntry.replace]
  · simp [get, assocGet]
  · simp [flush, flushCache, CacheEntry.is_modified, lookup_key, hkb,
      CacheEntry.replace_state]
  · simp [Host.removeKey, assocGet_assocRemove_self]

/-- C5 witness: the insert–remove–get–flush chain at key 5, value 7, on a
fresh map over empty storage, ending with no entry under digest `[109, 5]`. -/
theorem claim_C5_remove_clears_witness :
    codecN.serK 5 = some [5] ∧
    (remove codecN (⟨[109], [(5, some ⟨some 7, EntryState.Modified⟩)]⟩ : LookupMap Nat Nat)
        (⟨[], [HostOp.read [109, 5]]⟩ : Host (List Nat)) 5 =
      Except.ok (some 7, ⟨[109], [(5, some ⟨none, EntryState.Modified⟩)]⟩,
        ⟨[], [HostOp.read [109, 5]]⟩) ∧
    get codecN ⟨[109], [(5, some ⟨none, EntryState.Modified⟩)]⟩
        ⟨[], [HostOp.read [109, 5]]⟩ 5 =
      Except.ok (none, ⟨[109], [(5, some ⟨none, EntryState.Modified⟩)]⟩,
        ⟨[], [HostOp.read [109, 5]]⟩) ∧
    ∃ h3, flush codecN ⟨[109], [(5, some ⟨none, EntryState.Modified⟩)]⟩
          ⟨[], [HostOp.read [109, 5]]⟩ =
        Except.ok (⟨[109], [(5, some ⟨none, EntryState.Cached⟩)]⟩, h3) ∧
      assocGet h3.data (codecN.hash ([109] ++ [5])) = none) :=
  ⟨rfl,
    claim_C5_remove_clears rfl
      (show insert codecN (LookupMap.new [109]) Host.empty 5 7 =
        Except.ok (none,
          (⟨[109], [(5, some ⟨some 7, EntryState.Modified⟩)]⟩ : LookupMap Nat Nat),
          (⟨[], [HostOp.read [109, 5]]⟩ : Host (List Nat))) from rfl)⟩

/-- C6: flush is exact and idempotent — a successful `flush` demotes every
initialized slot to `Cached` keeping its value (`demote`), performs exactly
the operations `flushOps` lists (one write per `Modified`-present slot, one
remove per `Modified`-absent slot, nothing for any other slot), and an
immediate second `flush` changes nothing: zero writes and zero removes. -/
theorem claim_C6_flush_exact {c : Codec K V D} {m m1 : LookupMap K V} {h h1 : Host D}
    (hres : flush c m h = Except.ok (m1, h1)) :
    m1.cache = m.cache.map demote ∧
      (∃ ops, flushOps c m.pfx m.cache = Except.ok ops ∧ h1.log = h.log ++ ops) ∧
      flush c m1 h1 = Except.ok (m1, h1) := by
  unfold flush at hres
  cases hfc : flushCache c m.pfx m.cache h with
  | error s => rw [hfc] at hres; simp at hres
  | ok q =>
    obtain ⟨cache1, h'⟩ := q
    rw [hfc] at hres
    simp only [Except.ok.injEq, Prod.mk.injEq] at hres
    obtain ⟨hm1, hh1⟩ := hres
    subst hh1
    obtain ⟨hc1, ops, hops, hlog⟩ := flushCache_ok hfc
    subst hc1
    have hcache : m1.cache = m.cache.map demote := by rw [← hm1]
    have hpfx : m1.pfx = m.pfx := by rw [← hm1]
    refine ⟨hcache, ⟨ops, hops, hlog⟩, ?_⟩
    unfold flush
    rw [hpfx, hcache, flushCache_clean]
    exact congrArg (fun x => Except.ok (x, h')) hm1

/-- C6 witness: flushing a map with one modified slot writes it once, and the
second flush is the identity on map and host alike. -/
theorem claim_C6_flush_exact_witness :
    flush codecN (⟨[109], [(5, some ⟨some 7, EntryState.Modified⟩)]⟩ : LookupMap Nat Nat)
        Host.empty =
      Except.ok (⟨[109], [(5, some ⟨some 7, EntryState.Cached⟩)]⟩,
        (⟨[([109, 5], [7])], [HostOp.write [109, 5] [7]]⟩ : Host (List Nat))) ∧
    ((⟨[109], [(5, some ⟨some 7, EntryState.Cached⟩)]⟩ : LookupMap Nat Nat).cache =
        (⟨[109], [(5, some ⟨some 7, EntryState.Modified⟩)]⟩ : LookupMap Nat Nat).cache.map
          demote ∧
      (∃ ops, flushOps codecN
          (⟨[109], [(5, some ⟨some 7, EntryState.Modified⟩)]⟩ : LookupMap Nat Nat).pfx
          (⟨[109], [(5, some ⟨some 7, EntryState.Modified⟩)]⟩ : LookupMap Nat Nat).cache =
            Except.ok ops ∧
          (⟨[([109, 5], [7])], [HostOp.write [109, 5] [7]]⟩ : Host (List Nat)).log =
            (Host.empty (D := List Nat)).log ++ ops) ∧
      flush codecN (⟨[109], [(5, some ⟨some 7, EntryState.Cached⟩)]⟩ : LookupMap Nat Nat)
          ⟨[([109, 5], [7])], [HostOp.write [109, 5] [7]]⟩ =
        Except.ok (⟨[109], [(5, some ⟨some 7, EntryState.Cached⟩)]⟩,
          ⟨[([109, 5], [7])], [HostOp.write [109, 5] [7]]⟩)) :=
  ⟨rfl,
    claim_C6_flush_exact
      (show flush codecN
          (⟨[109], [(5, some ⟨some 7, EntryState.Modified⟩)]⟩ : LookupMap Nat Nat)
          Host.empty =
        Except.ok
          ((⟨[109], [(5, some ⟨some 7, EntryState.Cached⟩)]⟩ : LookupMap Nat Nat),
            (⟨[([109, 5], [7])], [HostOp.write [109, 5] [7]]⟩ : Host (List Nat)))
        from rfl)⟩

/-- C9: serialization and deserialization failures are fatal — a key that
fails to encode aborts `get` with `ERR_ELEMENT_SERIALIZATION` before touching
storage; stored bytes that fail to decode abort `get` with
`ERR_ELEMENT_DESERIALIZATION`; a value that fails to encode aborts `flush`
with `ERR_ELEMENT_SERIALIZATION`.  In each case the operation produces the
abort outcome, never a default or empty value. -/
theorem claim_C9_serialization_fatal :
    (∀ (c : Codec K V D) (m : LookupMap K V) (h : Host D) (k : K),
      assocGet m.cache k = none → c.serK k = none →
      get c m h k = Except.error ERR_ELEMENT_SERIALIZATION) ∧
    (∀ (c : Codec K V D) (m : LookupMap K V) (h : Host D) (k : K) (d : D) (bs : List Nat),
      assocGet m.cache k = none → lookup_key c m.pfx k = Except.ok d →
      assocGet h.data d = some bs → c.deserV bs = none →
      get c m h k = Except.error ERR_ELEMENT_DESERIALIZATION) ∧
    (∀ (c : Codec K V D) (pfx : List Nat) (k : K) (v : V)
      (rest : List (K × Option (CacheEntry V))) (h : Host D) (kb : List Nat),
      c.serK k = some kb → c.serV v = none →
      flush c ⟨pfx, (k, some ⟨some v, EntryState.Modified⟩) :: rest⟩ h =
        Except.error ERR_ELEMENT_SERIALIZATION) := by
  refine ⟨?_, ?_, ?_⟩
  · intro c m h k hmk hser
    simp [get, hmk, load_element, lookup_key, hser]
  · intro c m h k d bs hmk hlk hbs hdv
    simp [get, hmk, load_element, hlk, Host.read, hbs, deserialize_element, hdv]
  · intro c pfx k v rest h kb hkb hsv
    simp [flush, flushCache, CacheEntry.is_modified, lookup_key, hkb, hsv]

/-- C9 witness: a failing key encoder aborts `get`; undecodable stored bytes
abort `get`; a failing value encoder aborts `flush`. -/
theorem claim_C9_serialization_fatal_witness :
    get codecBadK (LookupMap.new [109]) Host.empty 5 =
      Except.error ERR_ELEMENT_SERIALIZATION ∧
    get codecN (LookupMap.new [109]) (⟨[([109, 5], [1, 2])], []⟩ : Host (List Nat)) 5 =
      Except.error ERR_ELEMENT_DESERIALIZATION ∧
    flush codecBadV (⟨[109], [(5, some ⟨some 7, EntryState.Modified⟩)]⟩ : LookupMap Nat Nat)
        Host.empty =
      Except.error ERR_ELEMENT_SERIALIZATION :=
  ⟨claim_C9_serialization_fatal.1 codecBadK (LookupMap.new [109]) Host.empty 5 rfl rfl,
    claim_C9_serialization_fatal.2.1 codecN (LookupMap.new [109])
      ⟨[([109, 5], [1, 2])], []⟩ 5 [109, 5] [1, 2] rfl rfl rfl rfl,
    claim_C9_serialization_fatal.2.2 codecBadV [109] 5 7 [] Host.empty [5] rfl rfl⟩

end LookupMap

end NearStore
